import Mathlib

/-!
Verification of the single-path homotopy ODE abstraction (`HomotopyODE` from
`src/kernel/ode/dolfin/HomotopyODE.h`).

The header declares the class interface only: the enum `State { ode, endgame }`,
the constructor `HomotopyODE(Homotopy&, uint n)`, the initial-value accessor
`z0(i)`, the evaluation callbacks `feval`, `M`, `J`, the post-step hook
`update(z, t, end)` and the query `state()`, together with the private fields
`homotopy` (a non-owning reference), `n` (the system size) and `_state`.
The member bodies and the `Homotopy` collaborator are not part of the sources,
so every behavioural definition below is modelled from the specification and
carries a `Modelled from the spec:` note saying what is missing.

Vectors are embedded as functions `ℕ → ℂ` (C arrays of `complex`), the real
parameter `t` as `ℝ`, and the per-component vector-field formulas as
multivariate polynomials over `ℂ` (the spec describes a polynomial-system
homotopy whose field is built from coefficient data supplied by the shared
`Homotopy` object).
-/

namespace Dolfin

open MvPolynomial

/-- Current state of a path: solving the ODE or playing the end game
(`HomotopyODE::State` in the header). -/
inductive State where
  | ode : State
  | endgame : State
deriving DecidableEq, Repr

/-- Modelled from the spec: the shared `Homotopy` collaborator.  The class is
only forward-declared in the header; per the spec (§2, §6) it supplies
read-only per-path data: the start-system root coordinates backing
`initialValue` (§4.1), the mass-operator matrix, a pure function of
`(t, pathState)` (§4.3), and the coefficient data of the continuation vector
field, modelled here as one multivariate polynomial per component, selected by
`(pathState, t)` (§4.2). -/
structure Homotopy where
  startRoot : ℕ → ℂ
  massMat : State → ℝ → ℕ → ℕ → ℂ
  fieldPoly : State → ℝ → ℕ → MvPolynomial ℕ ℂ

/-- The per-path ODE object: the non-owning reference to the shared homotopy,
the system size `n`, and the private path state `_state` (data members of
`HomotopyODE` in the header). -/
structure HomotopyODE where
  homotopy : Homotopy
  n : ℕ
  _state : State

/-- Modelled from the spec: the constructor `HomotopyODE(Homotopy& homotopy,
uint n)` (body not in the sources).  It stores the reference and the size and
initialises the state to `ode` (§3: initial value `Ode`); per §7 size
validation is the caller's obligation, so none is performed here. -/
def HomotopyODE.create (h : Homotopy) (n : ℕ) : HomotopyODE :=
  { homotopy := h, n := n, _state := State.ode }

/-- The state query `HomotopyODE::state()`: read-only access to `_state`. -/
def HomotopyODE.state (o : HomotopyODE) : State :=
  o._state

/-- Modelled from the spec: `HomotopyODE::z0(i)` (body not in the sources)
returns the `i`-th coordinate of the path's starting point as supplied by the
shared homotopy (§4.1); no side effects. -/
def HomotopyODE.z0 (o : HomotopyODE) (i : ℕ) : ℂ :=
  o.homotopy.startRoot i

/-- Modelled from the spec: `HomotopyODE::feval(z, t, f)` (body not in the
sources) evaluates the continuation vector field componentwise at `(z, t)`;
the formula is selected by the current path state and by data from the shared
homotopy (§4.2). -/
def HomotopyODE.feval (o : HomotopyODE) (z : ℕ → ℂ) (t : ℝ) : ℕ → ℂ :=
  fun i => eval z (o.homotopy.fieldPoly o._state t i)

/-- Modelled from the spec: `HomotopyODE::M(x, y, z, t)` (body not in the
sources) computes the mass-operator product `y = M(t)·x`; per §4.3 the result
is a pure function of `(x, t, pathState)` only, so the state vector argument
`z` passed alongside is not consulted. -/
noncomputable def HomotopyODE.M (o : HomotopyODE) (x : ℕ → ℂ) (_z : ℕ → ℂ) (t : ℝ) : ℕ → ℂ :=
  fun i => ∑ j ∈ Finset.range o.n, o.homotopy.massMat o._state t i j * x j

/-- Modelled from the spec: `HomotopyODE::J(x, y, u, t)` (body not in the
sources) computes the Jacobian-operator product `y = J(u,t)·x`, where `J` is
the Jacobian of the vector field with respect to the state at the evaluation
point `u` (§4.4): entry `(i, j)` is the `j`-th partial derivative of the
`i`-th field component. -/
noncomputable def HomotopyODE.J (o : HomotopyODE) (x : ℕ → ℂ) (u : ℕ → ℂ) (t : ℝ) : ℕ → ℂ :=
  fun i => ∑ j ∈ Finset.range o.n,
    eval u (pderiv j (o.homotopy.fieldPoly o._state t i)) * x j

/-- Modelled from the spec (§4.5, §9): the overridable policy of the virtual
hook `update` — whether the accepted step enters the endgame region, and
whether integration should stop. -/
structure PathPolicy where
  enterEndgame : (ℕ → ℂ) → ℝ → Bool → Bool
  shouldStop : (ℕ → ℂ) → ℝ → Bool → Bool

/-- Modelled from the spec: the default (non-overridden) policy of
`HomotopyODE::update` — never transition, never request a stop (§4.5). -/
def defaultPolicy : PathPolicy :=
  { enterEndgame := fun _ _ _ => false, shouldStop := fun _ _ _ => false }

/-- Modelled from the spec: the post-step hook `HomotopyODE::update(z, t, end)`
(body not in the sources).  Per §4.5 it transitions `_state` from `ode` to
`endgame` when the policy signals the endgame region (one-way: once in
`endgame` the state is kept), and returns `false` exactly when the policy
requests a stop.  The returned pair is (continue-flag, updated instance). -/
def HomotopyODE.update (o : HomotopyODE) (pol : PathPolicy) (z : ℕ → ℂ) (t : ℝ)
    (endFlag : Bool) : Bool × HomotopyODE :=
  let newState :=
    match o._state with
    | State.endgame => State.endgame
    | State.ode => if pol.enterEndgame z t endFlag then State.endgame else State.ode
  (!pol.shouldStop z t endFlag, { o with _state := newState })

/-- A whole sequence of accepted steps reported through the hook: fold
`update` over the list of `(z, t, endFlag)` call arguments. -/
def runUpdates (pol : PathPolicy) (o : HomotopyODE) :
    List ((ℕ → ℂ) × ℝ × Bool) → HomotopyODE
  | [] => o
  | c :: cs => runUpdates pol (o.update pol c.1 c.2.1 c.2.2).2 cs

/-- The call `z0(i)` as observed by a caller: the returned value together with
the instance after the call (the call has no side effects, §4.1). -/
def HomotopyODE.z0Call (o : HomotopyODE) (i : ℕ) : ℂ × HomotopyODE :=
  (o.z0 i, o)

/-- The call `feval(z, t)` together with the instance after the call. -/
def HomotopyODE.fevalCall (o : HomotopyODE) (z : ℕ → ℂ) (t : ℝ) :
    (ℕ → ℂ) × HomotopyODE :=
  (o.feval z t, o)

/-- The call `M(x, ·, z, t)` together with the instance after the call. -/
noncomputable def HomotopyODE.MCall (o : HomotopyODE) (x z : ℕ → ℂ) (t : ℝ) :
    (ℕ → ℂ) × HomotopyODE :=
  (o.M x z t, o)

/-- The call `J(x, ·, u, t)` together with the instance after the call. -/
noncomputable def HomotopyODE.JCall (o : HomotopyODE) (x u : ℕ → ℂ) (t : ℝ) :
    (ℕ → ℂ) × HomotopyODE :=
  (o.J x u t, o)

/-- A function `ℕ → ℂ` represents a vector of length `n` when it vanishes at
every index from `n` on (the embedding of "complex vector of length
`problemSize`"). -/
def VecLen (n : ℕ) (x : ℕ → ℂ) : Prop :=
  ∀ j, n ≤ j → x j = 0

/-- A concrete homotopy used by the witnesses below: start root `(1, i)`,
identity mass matrix, field component `i` equal to `(X i)^2`. -/
noncomputable def sampleHomotopy : Homotopy where
  startRoot := fun i => if i = 0 then 1 else Complex.I
  massMat := fun _ _ i j => if i = j then 1 else 0
  fieldPoly := fun _ _ i => X i ^ 2

/-- A concrete direction vector of length 1: the first standard basis vector. -/
noncomputable def sampleX : ℕ → ℂ :=
  fun j => if j = 0 then 1 else 0

/-- A concrete evaluation point: the all-ones vector. -/
noncomputable def sampleZ : ℕ → ℂ :=
  fun _ => 1

/-- A concrete path object already in the `endgame` state. -/
noncomputable def sampleEndgameODE : HomotopyODE :=
  { homotopy := sampleHomotopy, n := 2, _state := State.endgame }

/-- Chain rule for evaluating a multivariate polynomial along a line: if the
direction `x` vanishes from index `n` on, the map `s ↦ p(z + s·x)` has
derivative `∑ j < n, (∂p/∂X j)(z) · x j` at `s = 0`. -/
theorem hasDerivAt_eval_add_smul (n : ℕ) (x z : ℕ → ℂ)
    (hx : ∀ j, n ≤ j → x j = 0) (p : MvPolynomial ℕ ℂ) :
    HasDerivAt (fun s : ℂ => eval (fun j => z j + s * x j) p)
      (∑ j ∈ Finset.range n, eval z (pderiv j p) * x j) 0 := by
  induction p using MvPolynomial.induction_on with
  | h_C a =>
      simp only [eval_C, pderiv_C, map_zero, zero_mul, Finset.sum_const_zero]
      exact hasDerivAt_const 0 a
  | h_add p q hp hq =>
      simp only [map_add]
      have hsum := hp.add hq
      convert hsum using 1
      rw [← Finset.sum_add_distrib]
      exact Finset.sum_congr rfl fun j _ => by rw [add_mul]
  | h_X p k hp =>
      classical
      have hlin : HasDerivAt (fun s : ℂ => z k + s * x k) (x k) 0 := by
        simpa using ((hasDerivAt_id (0 : ℂ)).mul_const (x k)).const_add (z k)
      have hz0 : (fun j => z j + (0 : ℂ) * x j) = z := by
        funext j; rw [zero_mul, add_zero]
      have hmul : HasDerivAt
          (fun s : ℂ => eval (fun j => z j + s * x j) p * (z k + s * x k))
          ((∑ j ∈ Finset.range n, eval z (pderiv j p) * x j) * z k
            + eval z p * x k) 0 := by
        simpa [hz0] using hp.mul hlin
      have hval : ∑ j ∈ Finset.range n, eval z (pderiv j (p * X k)) * x j
          = (∑ j ∈ Finset.range n, eval z (pderiv j p) * x j) * z k
            + eval z p * x k := by
        have hterm : ∀ j ∈ Finset.range n,
            eval z (pderiv j (p * X k)) * x j
              = eval z (pderiv j p) * x j * z k
                + (if k = j then eval z p * x j else 0) := by
          intro j _
          rw [pderiv_mul, map_add, map_mul, map_mul, eval_X, pderiv_X,
            Pi.single_apply]
          by_cases hkj : k = j
          · subst hkj
            simp only [eq_self_iff_true, if_true, map_one]
            ring
          · simp only [if_neg hkj, map_zero, mul_zero, zero_mul, add_zero]
            ring
        rw [Finset.sum_congr rfl hterm, Finset.sum_add_distrib,
          ← Finset.sum_mul, Finset.sum_ite_eq]
        by_cases hk : k ∈ Finset.range n
        · rw [if_pos hk]
        · rw [if_neg hk, hx k (by simpa using hk), mul_zero]
      simp only [map_mul, eval_X]
      rw [hval]
      exact hmul

/-- Claim C1: for every sequence of calls to the step-acceptance hook
`update`, once the instance's state has become `endgame` it never returns to
`ode`: the transition is monotone and happens at most once. -/
theorem state_endgame_monotone (pol : PathPolicy) (o : HomotopyODE)
    (calls : List ((ℕ → ℂ) × ℝ × Bool)) (h : o.state = State.endgame) :
    (runUpdates pol o calls).state = State.endgame := by
  induction calls generalizing o with
  | nil => exact h
  | cons c cs ih =>
      apply ih
      simp only [HomotopyODE.state] at h ⊢
      simp [HomotopyODE.update, h]

/-- Witness for C1: a concrete two-call sequence on a concrete instance
already in the `endgame` state keeps the state at `endgame`. -/
theorem state_endgame_monotone_witness :
    sampleEndgameODE.state = State.endgame ∧
    (runUpdates defaultPolicy sampleEndgameODE
      [(fun _ => 0, (1 : ℝ), true), (fun _ => 0, (0 : ℝ), false)]).state
        = State.endgame :=
  ⟨rfl, state_endgame_monotone defaultPolicy sampleEndgameODE _ rfl⟩

/-- Claim C2: immediately after construction, before any call to the hook,
`state()` returns `ode`. -/
theorem create_state_ode (h : Homotopy) (n : ℕ) :
    (HomotopyODE.create h n).state = State.ode :=
  rfl

/-- Claim C3: the default (non-overridden) hook, called with any state vector
`z`, any parameter `t` and any final-step flag on an instance in state `ode`,
returns `true` and leaves the state at `ode`. -/
theorem update_default_no_stop_no_transition (o : HomotopyODE) (z : ℕ → ℂ)
    (t : ℝ) (endFlag : Bool) (h : o.state = State.ode) :
    (o.update defaultPolicy z t endFlag).1 = true ∧
      (o.update defaultPolicy z t endFlag).2.state = State.ode := by
  simp only [HomotopyODE.state] at h
  refine ⟨by simp [HomotopyODE.update, defaultPolicy], ?_⟩
  simp [HomotopyODE.update, HomotopyODE.state, defaultPolicy, h]

/-- Witness for C3: the default hook on a freshly constructed instance, at a
concrete step, returns `true` and leaves the state at `ode`. -/
theorem update_default_no_stop_no_transition_witness :
    (HomotopyODE.create sampleHomotopy 2).state = State.ode ∧
    ((HomotopyODE.create sampleHomotopy 2).update defaultPolicy (fun _ => 0)
      (1 / 2) false).1 = true ∧
    ((HomotopyODE.create sampleHomotopy 2).update defaultPolicy (fun _ => 0)
      (1 / 2) false).2.state = State.ode :=
  ⟨rfl, update_default_no_stop_no_transition _ _ _ _ rfl⟩

/-- Claim C4: the mass-operator product is a pure function of `x`, `t` and
the path state only — the state vector passed alongside does not influence
the result. -/
theorem M_ignores_state_vector (o : HomotopyODE) (x z w : ℕ → ℂ) (t : ℝ) :
    o.M x z t = o.M x w t :=
  rfl

/-- Claim C5: for every `z`, every `t ∈ [0,1]` and every direction `x` of
length `problemSize`, the Jacobian-operator product equals the directional
derivative of the vector field `feval` at `(z, t)` in direction `x`. -/
theorem J_eq_directional_deriv_feval (o : HomotopyODE) (x z : ℕ → ℂ) (t : ℝ)
    (i : ℕ) (ht0 : 0 ≤ t) (ht1 : t ≤ 1) (hx : VecLen o.n x) :
    o.J x z t i
      = deriv (fun s : ℂ => o.feval (fun j => z j + s * x j) t i) 0 := by
  simp only [HomotopyODE.J, HomotopyODE.feval]
  exact ((hasDerivAt_eval_add_smul o.n x z hx
    (o.homotopy.fieldPoly o._state t i)).deriv).symm

/-- Witness for C5: on a concrete one-dimensional instance with field `X 0 ^ 2`
the Jacobian product at the all-ones point in the first basis direction is the
directional derivative of the field there. -/
theorem J_eq_directional_deriv_feval_witness :
    (0 : ℝ) ≤ 1 / 2 ∧ (1 / 2 : ℝ) ≤ 1 ∧
    VecLen (HomotopyODE.create sampleHomotopy 1).n sampleX ∧
    (HomotopyODE.create sampleHomotopy 1).J sampleX sampleZ (1 / 2) 0
      = deriv (fun s : ℂ => (HomotopyODE.create sampleHomotopy 1).feval
          (fun j => sampleZ j + s * sampleX j) (1 / 2) 0) 0 := by
  have hx : VecLen (HomotopyODE.create sampleHomotopy 1).n sampleX := by
    intro j hj
    have hne : ¬ j = 0 := by
      simp only [HomotopyODE.create] at hj
      omega
    simp [sampleX, hne]
  exact ⟨by norm_num, by norm_num, hx,
    J_eq_directional_deriv_feval _ _ _ _ _ (by norm_num) (by norm_num) hx⟩

/-- Claim C6: for fixed `t` and fixed path state, the mass-operator product is
linear in `x`. -/
theorem M_linear_in_x (o : HomotopyODE) (a b : ℂ) (x1 x2 z : ℕ → ℂ) (t : ℝ) :
    o.M (fun j => a * x1 j + b * x2 j) z t
      = fun i => a * o.M x1 z t i + b * o.M x2 z t i := by
  funext i
  simp only [HomotopyODE.M, Finset.mul_sum]
  rw [← Finset.sum_add_distrib]
  exact Finset.sum_congr rfl fun j _ => by ring

/-- Claim C7: for fixed evaluation point `(u, t)` and fixed path state, the
Jacobian-operator product is linear in the direction `x`. -/
theorem J_linear_in_x (o : HomotopyODE) (a b : ℂ) (x1 x2 u : ℕ → ℂ) (t : ℝ) :
    o.J (fun j => a * x1 j + b * x2 j) u t
      = fun i => a * o.J x1 u t i + b * o.J x2 u t i := by
  funext i
  simp only [HomotopyODE.J, Finset.mul_sum]
  rw [← Finset.sum_add_distrib]
  exact Finset.sum_congr rfl fun j _ => by ring

/-- Claim C8: every evaluation call (`feval`, `M`, `J`, `z0`) is pure: it
leaves the instance — its path state, size and referenced homotopy —
unchanged. -/
theorem eval_calls_leave_instance_unchanged (o : HomotopyODE) (z x u : ℕ → ℂ)
    (t : ℝ) (i : ℕ) :
    (o.fevalCall z t).2 = o ∧ (o.MCall x z t).2 = o ∧ (o.JCall x u t).2 = o ∧
      (o.z0Call i).2 = o :=
  ⟨rfl, rfl, rfl, rfl⟩

/-- Claim C9: for every component index below `problemSize`, `z0` is
deterministic and stable: the call leaves the instance unchanged and an
immediately repeated call returns the same value. -/
theorem z0_deterministic_stable (o : HomotopyODE) (i : ℕ) (h : i < o.n) :
    (o.z0Call i).2 = o ∧ ((o.z0Call i).2.z0Call i).1 = (o.z0Call i).1 :=
  ⟨rfl, rfl⟩

/-- Witness for C9: index `0` of a concrete two-dimensional instance. -/
theorem z0_deterministic_stable_witness :
    0 < (HomotopyODE.create sampleHomotopy 2).n ∧
    ((HomotopyODE.create sampleHomotopy 2).z0Call 0).2
      = HomotopyODE.create sampleHomotopy 2 ∧
    (((HomotopyODE.create sampleHomotopy 2).z0Call 0).2.z0Call 0).1
      = ((HomotopyODE.create sampleHomotopy 2).z0Call 0).1 :=
  ⟨by decide, z0_deterministic_stable _ 0 (by decide)⟩

/-- Claim C10: the constructor does not validate its size argument: for every
`n`, including `n = 0`, the constructed instance's size field equals `n`, so
an instance with `problemSize = 0` is reachable. -/
theorem create_accepts_any_size (h : Homotopy) (n : ℕ) :
    (HomotopyODE.create h n).n = n ∧ (HomotopyODE.create h 0).n = 0 :=
  ⟨rfl, rfl⟩

end Dolfin
